import Mathlib

/-!
Verification development for an HTTP server framework (route matching,
middleware chain, per-request context propagation, response lifecycle,
dispatcher error handling, rate limiting, body parsing).

Each section embeds one component of the TypeScript source as executable
Lean definitions, followed by theorems about the claims of the
specification.
-/

set_option maxRecDepth 8000

namespace Framework

/-! ## PathRouter (src/core/router.ts)

`Router._normalizePath`, `Router._matchPath`, `Router.match`,
`Router.hasPath`, `Router.getAllowedMethods`, `Router.addRoute`.

`_matchPath` in the source builds a JavaScript regex from the pattern by
(1) escaping regex metacharacters, (2) replacing `:name?` and `:name`
with named groups `(?<name>[^/]+)` (optionally followed by `?`), and
(3) replacing `*` with `.*`, then matching the anchored regex against
the path.  The embedding performs the same escape pass over the pattern
string, compiles the escaped string into the token sequence that the
constructed regex denotes (escaped literal char / named capture /
wildcard / plain literal char), and runs the greedy backtracking
semantics of that regex.  Greedy choice matters for capture extraction,
so a capture tries the longest run of non-`/` characters first and `.*`
tries the longest consumption first, exactly as the JS engine does.
Recursion is driven by a structural fuel argument so that every
function evaluates by kernel reduction; the top-level entry points pass
fuel that provably cannot run out. -/

/-- JS `String.prototype.toUpperCase` (character-wise). -/
def jsToUpper (s : String) : String :=
  String.mk (s.toList.map Char.toUpper)

/-- JS `String.prototype.toLowerCase` (character-wise). -/
def jsToLower (s : String) : String :=
  String.mk (s.toList.map Char.toLower)

/-- JS `String.prototype.startsWith`. -/
def strStartsWith (s pre : String) : Bool :=
  pre.toList.isPrefixOf s.toList

/-- Characters escaped by the source's replace of
`[.+?^$\x7b\x7d()|[\]\\]` (regex metacharacters except `:` and `*`);
`Char.ofNat 123` and `Char.ofNat 125` are the curly braces. -/
def regexSpecials : List Char :=
  ['.', '+', '?', '^', '$', Char.ofNat 123, Char.ofNat 125,
   '(', ')', '|', '[', ']', '\\']

/-- The escape pass: every metacharacter is prefixed with a backslash,
mirroring `.replace(/[.+?^$\x7b\x7d()|[\]\\]/g, '\\$&')`. -/
def escapeRegexChars : List Char → List Char
  | [] => []
  | c :: cs =>
    if c ∈ regexSpecials then '\\' :: c :: escapeRegexChars cs
    else c :: escapeRegexChars cs

/-- A `\w` word character as in JavaScript regexes. -/
def isWordChar (c : Char) : Bool :=
  c.isAlpha || c.isDigit || c = '_'

/-- One token of the regex the source constructs from a pattern. -/
inductive RegexTok where
  /-- A character that must match literally (escaped or plain). -/
  | lit (c : Char)
  /-- A named group `(?<name>[^/]+)`; `opt` records a trailing `?`
  (produced by the `:name?` replacement). -/
  | cap (name : String) (opt : Bool)
  /-- The `.*` produced from `*`. -/
  | wild
  deriving Repr, DecidableEq

/-- Compile the escaped pattern characters into the token sequence of
the regex built by the source: the `:name?` replacement fires when `:`
is followed by word characters and then a bare `?`, the `:name`
replacement when `:` is followed by word characters, `*` becomes `.*`,
a backslash escapes the following character, and everything else is a
literal.  Fuel decreases on every step and each step consumes at least
one character, so `length + 1` fuel never runs out. -/
def tokenizeFuel : Nat → List Char → List RegexTok
  | 0, _ => []
  | _ + 1, [] => []
  | f + 1, '\\' :: c :: cs => .lit c :: tokenizeFuel f cs
  | _ + 1, '\\' :: [] => [.lit '\\']
  | f + 1, '*' :: cs => .wild :: tokenizeFuel f cs
  | f + 1, ':' :: cs =>
    let name := cs.takeWhile isWordChar
    if name.isEmpty then .lit ':' :: tokenizeFuel f cs
    else
      match cs.drop name.length with
      | '?' :: rest => .cap (String.mk name) true :: tokenizeFuel f rest
      | rest => .cap (String.mk name) false :: tokenizeFuel f rest
  | f + 1, c :: cs => .lit c :: tokenizeFuel f cs

/-- Token sequence of the regex built for an (already escaped) pattern. -/
def tokenizeEscaped (cs : List Char) : List RegexTok :=
  tokenizeFuel (cs.length + 1) cs

/-- Extracted captures: group name to matched substring (`none` records
a named group left unmatched, as `match.groups` reports `undefined`). -/
abbrev Captures := List (String × Option String)

/-- State of the backtracking matcher: matching the token list against
the remaining characters, or trying capture lengths `j, …, 1`, or
trying wildcard consumptions `j, …, 0`. -/
inductive MatchState where
  | toks (ts : List RegexTok) (cs : List Char)
  | cap (ts : List RegexTok) (name : String) (cs : List Char) (j : Nat)
  | wild (ts : List RegexTok) (cs : List Char) (j : Nat)

/-- Greedy matcher for the anchored regex denoted by the tokens.  A
capture group `[^/]+` tries the longest run of non-`/` characters
first, then backtracks; `.*` tries the longest consumption first, down
to consuming nothing. -/
def matchRun : Nat → MatchState → Option Captures
  | 0, _ => none
  | _ + 1, .toks [] cs => if cs.isEmpty then some [] else none
  | f + 1, .toks (.lit c :: ts) cs =>
    match cs with
    | [] => none
    | x :: xs => if x = c then matchRun f (.toks ts xs) else none
  | f + 1, .toks (.cap name opt :: ts) cs =>
    let maxRun := (cs.takeWhile (fun c => c ≠ '/')).length
    match matchRun f (.cap ts name cs maxRun) with
    | some r => some r
    | none =>
      if opt then (matchRun f (.toks ts cs)).map (fun r => (name, none) :: r)
      else none
  | f + 1, .toks (.wild :: ts) cs => matchRun f (.wild ts cs cs.length)
  | _ + 1, .cap _ _ _ 0 => none
  | f + 1, .cap ts name cs (j + 1) =>
    match matchRun f (.toks ts (cs.drop (j + 1))) with
    | some r => some ((name, some (String.mk (cs.take (j + 1)))) :: r)
    | none => matchRun f (.cap ts name cs j)
  | f + 1, .wild ts cs 0 => matchRun f (.toks ts cs)
  | f + 1, .wild ts cs (j + 1) =>
    match matchRun f (.toks ts (cs.drop (j + 1))) with
    | some r => some r
    | none => matchRun f (.wild ts cs j)

/-- Fuel that always suffices for `matchRun`: each token costs one step
plus at most `|cs| + 1` trial steps. -/
def matchFuel (ts : List RegexTok) (cs : List Char) : Nat :=
  (ts.length + 1) * (cs.length + 2)

/-- `Router._matchPath`: exact string equality short-circuits with no
captures; otherwise the pattern is escaped, compiled and matched
greedily against the whole path. -/
def matchPath (pattern path : String) : Option Captures :=
  if pattern = path then some []
  else
    let ts := tokenizeEscaped (escapeRegexChars pattern.toList)
    matchRun (matchFuel ts path.toList) (.toks ts path.toList)

/-- Drop every trailing `/` (the source's `replace(/\/+$/, '')`). -/
def dropTrailingSlashes (s : List Char) : List Char :=
  (s.reverse.dropWhile (fun c => c = '/')).reverse

/-- `Router._normalizePath`: empty and `/` normalize to `/`; otherwise
trailing slashes are removed and a leading slash is ensured.  Note that
no case folding happens here. -/
def normalizePath (path : String) : String :=
  if path = "" ∨ path = "/" then "/"
  else
    let normalized := String.mk (dropTrailingSlashes path.toList)
    if strStartsWith normalized "/" then normalized
    else "/" ++ normalized

/-- A registered route.  Handlers, middlewares and schemas are opaque to
the router, so they are represented by tags (`Nat`). -/
structure Route where
  method : String
  path : String
  handler : Nat
  middleware : List Nat
  schema : Option Nat
  deriving Repr, DecidableEq

/-- Router state: the registered route table and the global middleware
list. -/
structure RouterState where
  routes : List Route
  globalMiddleware : List Nat
  deriving Repr, DecidableEq

/-- The empty router. -/
def RouterState.empty : RouterState := ⟨[], []⟩

/-- `Router.addRoute`: the stored route upper-cases the method,
normalizes the path, and defaults middleware to `[]`. -/
def RouterState.addRoute (rt : RouterState) (method : String) (path : String)
    (handler : Nat) (middleware : List Nat := []) (schema : Option Nat := none) :
    RouterState :=
  { rt with
    routes := rt.routes ++
      [{ method := jsToUpper method, path := normalizePath path,
         handler := handler, middleware := middleware, schema := schema }] }

/-- `Router.use`: append a global middleware. -/
def RouterState.useGlobal (rt : RouterState) (mw : Nat) : RouterState :=
  { rt with globalMiddleware := rt.globalMiddleware ++ [mw] }

/-- A successful match: the route (with global and route middleware
combined) and the extracted params. -/
structure RouteMatch where
  route : Route
  params : Captures
  deriving Repr, DecidableEq

/-- The `for … of this.routes` loop body of `Router.match`: skip routes
whose method differs from the upper-cased request method, return the
first whose pattern matches the normalized path. -/
def findMatch (gmw : List Nat) (methodUpper normalizedPath : String) :
    List Route → Option RouteMatch
  | [] => none
  | route :: rest =>
    if route.method ≠ methodUpper then findMatch gmw methodUpper normalizedPath rest
    else
      match matchPath route.path normalizedPath with
      | some params =>
        some { route := { route with middleware := gmw ++ route.middleware },
               params := params }
      | none => findMatch gmw methodUpper normalizedPath rest

/-- `Router.match`: normalize the path, then scan the route table in
registration order; the first route whose method equals the upper-cased
request method and whose pattern matches is returned, with
`globalMiddleware ++ route.middleware` as its middleware. -/
def RouterState.matchRoute (rt : RouterState) (method path : String) :
    Option RouteMatch :=
  findMatch rt.globalMiddleware (jsToUpper method) (normalizePath path) rt.routes

/-- Whether a route's pattern matches a (normalized) path. -/
def pathMatches (normalizedPath : String) (route : Route) : Bool :=
  (matchPath route.path normalizedPath).isSome

/-- `Router.hasPath`: some route matches the path under any method. -/
def RouterState.hasPath (rt : RouterState) (path : String) : Bool :=
  rt.routes.any (pathMatches (normalizePath path))

/-- The accumulation loop of `Router.getAllowedMethods`: push the
method of every route whose pattern matches. -/
def allowedAux (normalizedPath : String) : List Route → List String
  | [] => []
  | r :: rest =>
    match matchPath r.path normalizedPath with
    | some _ => r.method :: allowedAux normalizedPath rest
    | none => allowedAux normalizedPath rest

/-- `Router.getAllowedMethods`: the methods of all routes matching the
normalized path, in registration order. -/
def RouterState.getAllowedMethods (rt : RouterState) (path : String) :
    List String :=
  allowedAux (normalizePath path) rt.routes

/-! ## MiddlewareChain (src/core/middleware.ts)

`MiddlewareChain.execute` keeps a mutable `index` and `error`; the
`next` closure sets `error` when given an argument and otherwise
increments `index`.  The loop runs the middleware at `index`, breaks if
the middleware threw (recording the thrown error), breaks if `index`
did not move (an intentional halt), and otherwise re-checks
`index < length && !error`.  Finally `execute` throws `error` if set.

A middleware is embedded by its observable behaviour within one run:
the sequence of `next(...)` invocations it performs (each with an
optional error argument) and whether its body finally throws. -/

/-- The observable behaviour of one middleware during one execution. -/
structure MWBehavior (E : Type) where
  /-- The `next` invocations the middleware performs, in order; `some e`
  is `next(e)` and `none` is `next()`. -/
  nextCalls : List (Option E)
  /-- `some e` when the middleware body throws `e` after its `next`
  calls; `none` when it returns normally. -/
  throws : Option E
  deriving Repr, DecidableEq

/-- A middleware that calls `next()` exactly once and returns. -/
def MWBehavior.proceedOnce {E : Type} : MWBehavior E := ⟨[none], none⟩

/-- The `next` closure: `next(e)` overwrites `error` and returns
without touching `index`; `next()` increments `index`. -/
def applyNext {E : Type} (s : Nat × Option E) (c : Option E) : Nat × Option E :=
  match c with
  | some e => (s.1, some e)
  | none => (s.1 + 1, s.2)

/-- Effect of one middleware's `next` calls on `(index, error)`
starting from error unset. -/
def applyCalls {E : Type} (idx : Nat) (calls : List (Option E)) : Nat × Option E :=
  calls.foldl applyNext (idx, none)

/-- The `while` loop of `execute`, from index `idx` with `error`
unset (the loop condition guarantees this at every iteration entry).
Returns the indices of the middlewares that were invoked and the error
`execute` rejects with, if any.  Fuel decreases every iteration; the
index strictly increases whenever the loop continues, so
`mws.length` fuel always suffices from index `0`. -/
def execAux {E : Type} (mws : List (MWBehavior E)) : Nat → Nat → List Nat × Option E
  | 0, _ => ([], none)
  | f + 1, idx =>
    match mws[idx]? with
    | none => ([], none)
    | some b =>
      let s := applyCalls idx b.nextCalls
      match b.throws with
      | some e => ([idx], some e)
      | none =>
        if s.1 = idx then ([idx], s.2)
        else
          match s.2 with
          | some e => ([idx], some e)
          | none =>
            let rest := execAux mws f s.1
            (idx :: rest.1, rest.2)

/-- `MiddlewareChain.execute`: run the loop from index 0; the first
component lists the invoked middleware indices in order, the second is
the error the returned promise rejects with (`none` = resolves). -/
def executeChain {E : Type} (mws : List (MWBehavior E)) : List Nat × Option E :=
  execAux mws mws.length 0

/-- The value of the loop's `error` variable after a middleware's
`next` calls: the argument of the last `next(e)` call, if any (each
`next(e)` overwrites `error`). -/
def lastErr {E : Type} (calls : List (Option E)) : Option E :=
  calls.foldl (fun acc c => match c with | some e => some e | none => acc) none

/-- The error a middleware surfaces: the error it throws (the `catch`
overwrites `error`), or else the last error it passed to `next`. -/
def surfacedError {E : Type} (b : MWBehavior E) : Option E :=
  match b.throws with
  | some e => some e
  | none => lastErr b.nextCalls

/-! ## Response (src/core/response.ts)

The `Response` wrapper holds `statusCode`, a `headers` object, the
`body`, and private `_headersSent` / `_finished` flags, over a raw
`ServerResponse`.  The raw transport is modelled by the data actually
pushed to it: its status code, its header table, the chunks written,
and whether `end` was called (Node's `headersSent` flips once data is
flushed by `write`/`end`).  JS object keyed assignment replaces an
existing key in place and appends new keys at the end. -/

/-- JS object keyed assignment: replace an existing key in place,
append a new key at the end. -/
def setAssoc {α : Type} : List (String × α) → String → α → List (String × α)
  | [], k, v => [(k, v)]
  | (k', v') :: rest, k, v =>
    if k' = k then (k, v) :: rest else (k', v') :: setAssoc rest k v

/-- JS object keyed lookup. -/
def getAssoc {α : Type} (l : List (String × α)) (k : String) : Option α :=
  (l.find? (fun p => p.1 = k)).map (·.2)

/-- A header value: `string | string[]`. -/
inductive HeaderVal where
  | str (s : String)
  | arr (l : List String)
  deriving Repr, DecidableEq

/-- Data handed to the transport: `string | Buffer` (a buffer is a byte
list). -/
inductive RespData where
  | str (s : String)
  | buf (b : List Nat)
  deriving Repr, DecidableEq

/-- The raw `ServerResponse`: what the wrapper has pushed into the
transport.  `headersSentRaw` models Node's `headersSent`, which flips
when data is first flushed; `ended` models `writableEnded`. -/
structure RawResp where
  statusCode : Nat := 200
  headers : List (String × HeaderVal) := []
  chunks : List RespData := []
  ended : Bool := false
  headersSentRaw : Bool := false
  deriving Repr, DecidableEq

/-- `raw.write(chunk)`: pushes a chunk (flushing headers) and reports
backpressure (modelled as always `true`). -/
def RawResp.write (raw : RawResp) (d : RespData) : RawResp × Bool :=
  ({ raw with chunks := raw.chunks ++ [d], headersSentRaw := true }, true)

/-- `raw.end(data?)`: optionally pushes a final chunk, flushes headers
and marks the stream ended. -/
def RawResp.endRaw (raw : RawResp) (d : Option RespData) : RawResp :=
  { raw with chunks := raw.chunks ++ d.toList, ended := true,
             headersSentRaw := true }

/-- The body slot of the wrapper: a JS value, a string, or a buffer. -/
inductive BodyData (V : Type) where
  | val (v : V)
  | str (s : String)
  | buf (b : List Nat)
  deriving Repr, DecidableEq

/-- The `Response` wrapper state. -/
structure Resp (V : Type) where
  statusCode : Nat := 200
  headers : List (String × HeaderVal) := []
  body : Option (BodyData V) := none
  raw : RawResp := {}
  headersSentFlag : Bool := false
  finishedFlag : Bool := false
  deriving Repr, DecidableEq

/-- A freshly constructed response over a fresh transport. -/
def Resp.fresh {V : Type} : Resp V := {}

/-- The `headersSent` getter: `_headersSent || raw.headersSent`. -/
def Resp.headersSent {V : Type} (res : Resp V) : Bool :=
  res.headersSentFlag || res.raw.headersSentRaw

/-- The `finished` getter: `_finished || raw.writableEnded`. -/
def Resp.finished {V : Type} (res : Resp V) : Bool :=
  res.finishedFlag || res.raw.ended

/-- `Response.status`: no-op once headers were sent. -/
def Resp.status {V : Type} (res : Resp V) (code : Nat) : Resp V :=
  if res.headersSentFlag then res else { res with statusCode := code }

/-- `Response.header`: lower-cases the name; no-op once headers were
sent. -/
def Resp.header {V : Type} (res : Resp V) (name : String) (value : HeaderVal) :
    Resp V :=
  if res.headersSentFlag then res
  else { res with headers := setAssoc res.headers (jsToLower name) value }

/-- `Response.getHeader`. -/
def Resp.getHeader {V : Type} (res : Resp V) (name : String) : Option HeaderVal :=
  getAssoc res.headers (jsToLower name)

/-- `Response.type`: sets the `content-type` header. -/
def Resp.type {V : Type} (res : Resp V) (ct : String) : Resp V :=
  res.header "content-type" (.str ct)

/-- `Response._writeHeaders`: copy status code and headers to the raw
response and set `_headersSent`; no-op if already done. -/
def Resp.writeHeadersPriv {V : Type} (res : Resp V) : Resp V :=
  if res.headersSentFlag then res
  else
    { res with
      raw := { res.raw with
        statusCode := res.statusCode,
        headers := res.headers.foldl (fun acc p => setAssoc acc p.1 p.2)
          res.raw.headers },
      headersSentFlag := true }

/-- `Response._send`: write headers, end the raw response with the
data, and mark finished; no-op if already finished. -/
def Resp.sendPriv {V : Type} (res : Resp V) (d : RespData) : Resp V :=
  if res.finishedFlag then res
  else
    let r := res.writeHeadersPriv
    { r with raw := r.raw.endRaw (some d), finishedFlag := true }

/-- `Response.json`: set content type, store the body, send the
stringified value; no-op once finished.  `stringify` is the JSON
serializer collaborator (`utils/json.ts`). -/
def Resp.json {V : Type} (stringify : V → String) (res : Resp V) (data : V) :
    Resp V :=
  if res.finishedFlag then res
  else
    let r := (res.type "application/json; charset=utf-8")
    let r := { r with body := some (.val data) }
    r.sendPriv (.str (stringify data))

/-- `Response.text`: plain-text send; no-op once finished. -/
def Resp.text {V : Type} (res : Resp V) (data : String) : Resp V :=
  if res.finishedFlag then res
  else
    let r := res.type "text/plain; charset=utf-8"
    let r := { r with body := some (.str data) }
    r.sendPriv (.str data)

/-- `Response.html`: HTML send; no-op once finished. -/
def Resp.html {V : Type} (res : Resp V) (data : String) : Resp V :=
  if res.finishedFlag then res
  else
    let r := res.type "text/html; charset=utf-8"
    let r := { r with body := some (.str data) }
    r.sendPriv (.str data)

/-- `Response.send`: `undefined`/`null` sends an empty 204; a string or
buffer is sent with a default content type if none is set; anything
else goes through `json`.  No-op once finished. -/
def Resp.send {V : Type} (stringify : V → String) (res : Resp V)
    (data : Option (BodyData V)) : Resp V :=
  if res.finishedFlag then res
  else
    match data with
    | none => (res.status 204).sendPriv (.str "")
    | some (.str s) =>
      let r := if (res.getHeader "content-type").isNone
        then res.type "text/html; charset=utf-8" else res
      ({ r with body := some (.str s) }).sendPriv (.str s)
    | some (.buf b) =>
      let r := if (res.getHeader "content-type").isNone
        then res.type "application/octet-stream" else res
      ({ r with body := some (.buf b) }).sendPriv (.buf b)
    | some (.val v) => res.json stringify v

/-- `Response.redirect`: set status and `location`, send an HTML body;
no-op once finished. -/
def Resp.redirect {V : Type} (res : Resp V) (url : String)
    (code : Nat := 302) : Resp V :=
  if res.finishedFlag then res
  else
    let r := res.status code
    let r := r.header "location" (.str url)
    let r := r.type "text/html; charset=utf-8"
    r.sendPriv (.str ("Redirecting to " ++ url))

/-- `Response.write`: stream a chunk without ending; returns `false`
and does nothing once finished. -/
def Resp.write {V : Type} (res : Resp V) (chunk : RespData) : Resp V × Bool :=
  if res.finishedFlag then (res, false)
  else
    let r := if !res.headersSentFlag then res.writeHeadersPriv else res
    let (raw', ok) := r.raw.write chunk
    ({ r with raw := raw' }, ok)

/-- `Response.end`: end the raw response (optionally with data) and
mark finished; no-op once finished. -/
def Resp.endResp {V : Type} (res : Resp V) (data : Option RespData) : Resp V :=
  if res.finishedFlag then res
  else
    let r := if !res.headersSentFlag then res.writeHeadersPriv else res
    { r with raw := r.raw.endRaw data, finishedFlag := true }

/-- Invariant of every response reachable through the wrapper's own
operations: `_finished` implies `_headersSent` (both setters of
`_finished` first run `_writeHeaders`), and the raw stream is ended
exactly when `_finished` is set (only `_send`/`end` call `raw.end`). -/
def RespInv {V : Type} (res : Resp V) : Prop :=
  (res.finishedFlag = true → res.headersSentFlag = true) ∧
  res.raw.ended = res.finishedFlag

instance {V : Type} (res : Resp V) : Decidable (RespInv res) := by
  unfold RespInv; infer_instance

/-- Observable lifecycle stage of a response: pending, headers sent, or
finished. -/
def respRank {V : Type} (res : Resp V) : Nat :=
  if res.finished then 2 else if res.headersSent then 1 else 0

/-! ## ContextPropagator (src/core/context.ts)

`ContextManager` delegates binding to Node's `AsyncLocalStorage`: `run`
creates a fresh `RequestStore` and executes the task bound to it, and
every getter/setter reads `storage.getStore()`, the store bound to the
*calling* task.  `AsyncLocalStorage` is the platform collaborator; it
is embedded by its documented semantics — every continuation of a task
resolves `getStore()` to the store bound when the task was started.
The interleaving machine below runs two tasks, each a list of context
operations, under an arbitrary cooperative schedule; a step of a task
applies the operation to that task's own binding, which is exactly the
task-local resolution `AsyncLocalStorage` guarantees. -/

/-- The per-request `RequestStore`: id, bound request/response (tags),
start time, and the lazily allocated metadata map. -/
structure RequestStore (V : Type) where
  id : String
  reqTag : Nat
  resTag : Nat
  startTime : Nat
  metadata : Option (List (String × V)) := none
  deriving Repr, DecidableEq

/-- The store `ContextManager.run` creates (metadata left unallocated). -/
def mkStore {V : Type} (id : String) (reqTag resTag startTime : Nat) :
    RequestStore V :=
  { id := id, reqTag := reqTag, resTag := resTag, startTime := startTime }

/-- `context.getRequest()`: the bound request, if any. -/
def ctxGetRequest {V : Type} (b : Option (RequestStore V)) : Option Nat :=
  b.map (·.reqTag)

/-- `context.getResponse()`: the bound response, if any. -/
def ctxGetResponse {V : Type} (b : Option (RequestStore V)) : Option Nat :=
  b.map (·.resTag)

/-- `context.getRequestId()`: the bound request id, if any. -/
def ctxGetRequestId {V : Type} (b : Option (RequestStore V)) : Option String :=
  b.map (·.id)

/-- `context.set(key, value)`: lazily allocate the metadata map of the
bound store and set the key; no-op with no binding. -/
def ctxSet {V : Type} (k : String) (v : V) (b : Option (RequestStore V)) :
    Option (RequestStore V) :=
  match b with
  | none => none
  | some st => some { st with metadata := some (setAssoc (st.metadata.getD []) k v) }

/-- `context.get(key)`: read the bound store's metadata. -/
def ctxGet {V : Type} (k : String) (b : Option (RequestStore V)) : Option V :=
  b.bind fun st => st.metadata.bind fun m => getAssoc m k

/-- `context.hasContext()`. -/
def ctxHas {V : Type} (b : Option (RequestStore V)) : Bool :=
  b.isSome

/-- A context operation performed by a task. -/
inductive CtxOp (V : Type) where
  | set (k : String) (v : V)
  | getId
  | getMeta (k : String)
  | getReq
  | getRes
  deriving Repr, DecidableEq

/-- An observation returned by a read operation. -/
inductive CtxObs (V : Type) where
  | idObs (v : Option String)
  | metaObs (v : Option V)
  | reqObs (v : Option Nat)
  | resObs (v : Option Nat)
  deriving Repr, DecidableEq

/-- One task step: apply the operation to the task's own binding,
producing the updated binding and an observation for reads. -/
def stepOp {V : Type} (op : CtxOp V) (b : Option (RequestStore V)) :
    Option (RequestStore V) × Option (CtxObs V) :=
  match op with
  | .set k v => (ctxSet k v b, none)
  | .getId => (b, some (.idObs (ctxGetRequestId b)))
  | .getMeta k => (b, some (.metaObs (ctxGet k b)))
  | .getReq => (b, some (.reqObs (ctxGetRequest b)))
  | .getRes => (b, some (.resObs (ctxGetResponse b)))

/-- Run one task alone: final binding and the observations in order. -/
def runOps {V : Type} : List (CtxOp V) → Option (RequestStore V) →
    Option (RequestStore V) × List (CtxObs V)
  | [], b => (b, [])
  | op :: ops, b =>
    let (b', o) := stepOp op b
    let (b'', os) := runOps ops b'
    (b'', o.toList ++ os)

/-- Run two tasks under a cooperative schedule (`true` steps task A,
`false` steps task B; a step of an exhausted task does nothing).  Each
step resolves the binding of its own task, per the task-local
guarantee of `AsyncLocalStorage`. -/
def runSched {V : Type} : List Bool → List (CtxOp V) → Option (RequestStore V) →
    List (CtxOp V) → Option (RequestStore V) →
    List (CtxObs V) × List (CtxObs V)
  | [], _, _, _, _ => ([], [])
  | true :: sch, a :: as, bA, bs, bB =>
    let (bA', o) := stepOp a bA
    let (oA, oB) := runSched sch as bA' bs bB
    (o.toList ++ oA, oB)
  | true :: sch, [], bA, bs, bB => runSched sch [] bA bs bB
  | false :: sch, as, bA, b :: bs, bB =>
    let (bB', o) := stepOp b bB
    let (oA, oB) := runSched sch as bA bs bB'
    (oA, o.toList ++ oB)
  | false :: sch, as, bA, [], bB => runSched sch as bA [] bB

/-! ## Application error handling (src/core/application.ts)

`Application._handleError` returns immediately when the response is
already finished; otherwise it awaits the configured error handler and,
should that handler itself throw, falls back to
`Application._defaultErrorHandler` with the original error.  The
default handler also returns immediately on a finished response, then
answers with a JSON error body: the `HttpError` status/message (with
details only in debug mode), or a generic 500 (message/stack only in
debug mode).  A handler is embedded as a function from the error, the
request and the response state to the mutated response state plus the
error it throws, if any. -/

/-- A primitive JSON field value for error payloads (`jundef` mirrors
fields the source sets to `undefined` outside debug mode). -/
inductive JLeaf where
  | jundef
  | jstr (s : String)
  | jnum (n : Int)
  deriving Repr, DecidableEq

/-- A JSON-ish value: a primitive or a one-level object, which is all
the default error handler ever produces. -/
inductive JVal where
  | leaf (l : JLeaf)
  | jobj (fields : List (String × JLeaf))
  deriving Repr, DecidableEq

/-- An error reaching the dispatcher boundary: an `HttpError` with
status, message and optional details, or any other thrown error with
message and stack. -/
inductive ErrObj where
  | http (statusCode : Nat) (message : String) (details : Option JLeaf)
  | generic (message : String) (stack : String)
  deriving Repr, DecidableEq

/-- A configured error handler: mutates the response and optionally
throws. -/
abbrev ErrHandler := ErrObj → Nat → Resp JVal → Resp JVal × Option ErrObj

/-- `Application._defaultErrorHandler`. -/
def defaultErrorHandler (debug : Bool) (stringify : JVal → String)
    (e : ErrObj) (_req : Nat) (res : Resp JVal) : Resp JVal :=
  if res.finished then res
  else
    match e with
    | .http sc msg details =>
      (res.status sc).json stringify (.jobj
        [("error", .jstr msg), ("statusCode", .jnum (sc : Int)),
         ("details", if debug then details.getD .jundef else .jundef)])
    | .generic msg stack =>
      (res.status 500).json stringify (.jobj
        [("error", .jstr "Internal Server Error"), ("statusCode", .jnum 500),
         ("message", if debug then .jstr msg else .jundef),
         ("stack", if debug then .jstr stack else .jundef)])

/-- `Application._handleError`: skip if finished, else run the
configured handler; if it throws, run the default handler on the
original error over whatever state the configured handler left. -/
def handleError (debug : Bool) (stringify : JVal → String)
    (errorHandler : ErrHandler) (e : ErrObj) (req : Nat) (res : Resp JVal) :
    Resp JVal :=
  if res.finished then res
  else
    match errorHandler e req res with
    | (res', none) => res'
    | (res', some _) => defaultErrorHandler debug stringify e req res'

/-! ## Rate limiting (src/security/rate-limit.ts, store-based variant)

`MemoryStore.increment` creates a `{count: 1, resetTime: now + windowMs}`
record on first hit or after window expiry (`now > resetTime`), and
otherwise increments the count keeping the reset time.  The `rateLimit`
middleware increments, writes the rate-limit headers, and when the
count exceeds `max` writes a `retry-after` header (seconds until reset,
rounded up) and fails with an `HttpError(statusCode, message)`, which
the surrounding `catch` surfaces through `next(error)`. -/

/-- A rate limit record. -/
structure RateLimitInfo where
  count : Nat
  resetTime : Nat
  deriving Repr, DecidableEq

/-- The in-memory store keyed by client identifier. -/
abbrev RLStore := List (String × RateLimitInfo)

/-- `MemoryStore.increment`. -/
def memIncrement (st : RLStore) (key : String) (windowMs : Nat) (now : Nat) :
    RateLimitInfo × RLStore :=
  match getAssoc st key with
  | none =>
    let r : RateLimitInfo := ⟨1, now + windowMs⟩
    (r, setAssoc st key r)
  | some record =>
    if now > record.resetTime then
      let r : RateLimitInfo := ⟨1, now + windowMs⟩
      (r, setAssoc st key r)
    else
      let r : RateLimitInfo := ⟨record.count + 1, record.resetTime⟩
      (r, setAssoc st key r)

/-- `Math.ceil(a / b)` on integers for positive `b`. -/
def jsCeilDiv (a b : Int) : Int :=
  -(Int.fdiv (-a) b)

/-- An `HttpError` as thrown by the middleware. -/
structure HttpErrorV where
  statusCode : Nat
  message : String
  deriving Repr, DecidableEq

/-- The middleware's resolution: continue the chain or surface an
error through `next(error)`. -/
inductive RLOutcome where
  | proceed
  | failWith (e : HttpErrorV)
  deriving Repr, DecidableEq

/-- Configuration of `rateLimit` with the source's defaults. -/
structure RLConfig where
  max : Nat := 100
  windowMs : Nat := 15 * 60 * 1000
  message : String := "Too many requests, please try again later."
  statusCode : Nat := 429
  standardHeaders : Bool := true
  legacyHeaders : Bool := false
  deriving Repr, DecidableEq

/-- One request through the `rateLimit` middleware.  `skipResult` is
the collaborator `skip?.(req)`, `key` the `keyGenerator(req)` output;
`nowInc` is the clock at `store.increment` and `nowHdr` the clock read
just after it. -/
def rateLimitStep {V : Type} (cfg : RLConfig) (skipResult : Bool) (key : String)
    (nowInc nowHdr : Nat) (st : RLStore) (res : Resp V) :
    RLOutcome × RLStore × Resp V :=
  if skipResult then (.proceed, st, res)
  else
    let (info, st') := memIncrement st key cfg.windowMs nowInc
    let remaining : Int := max 0 ((cfg.max : Int) - (info.count : Int))
    let resetSecs : Int := jsCeilDiv ((info.resetTime : Int) - (nowHdr : Int)) 1000
    let res1 := if cfg.standardHeaders then
        ((res.header "ratelimit-limit" (.str (toString cfg.max))).header
          "ratelimit-remaining" (.str (toString remaining))).header
          "ratelimit-reset" (.str (toString resetSecs))
      else res
    let res2 := if cfg.legacyHeaders then
        ((res1.header "x-ratelimit-limit" (.str (toString cfg.max))).header
          "x-ratelimit-remaining" (.str (toString remaining))).header
          "x-ratelimit-reset" (.str (toString resetSecs))
      else res1
    if info.count > cfg.max then
      let res3 := res2.header "retry-after" (.str (toString resetSecs))
      (.failWith ⟨cfg.statusCode, cfg.message⟩, st', res3)
    else
      (.proceed, st', res2)

/-! ## Request body parsing (src/core/request.ts)

`Request.parseBody` returns the cached `this.body` when it is not
`undefined`; otherwise it consumes the raw stream (destroying the
connection and rejecting when the cumulative size passes
`maxBodySize`), decodes the data, and parses it according to the
`content-type` header: JSON (empty data leaves the body `undefined`,
a parse failure rejects), urlencoded form data, or raw text (empty
text leaves the body `undefined`).  The JSON and form parsers are
collaborators, passed as functions; `streamReads` counts how many
times the underlying stream was consumed. -/

/-- Substring containment, as JS `String.prototype.includes`. -/
def strContains (hay needle : String) : Bool :=
  (List.range (hay.toList.length + 1)).any
    (fun i => needle.toList.isPrefixOf (hay.toList.drop i))

/-- A parsed request body: JSON value, raw text, or form fields. -/
inductive BodyVal (J : Type) where
  | json (j : J)
  | rawText (s : String)
  | form (fields : List (String × String))
  deriving Repr, DecidableEq

/-- Errors `parseBody` rejects with. -/
inductive ParseErr where
  | payloadTooLarge
  | invalidJson
  deriving Repr, DecidableEq

/-- The request state visible to `parseBody`: the cached body, the raw
stream's chunks, the `content-type` header, the size bound, plus
observables recording stream consumption and destruction. -/
structure ReqState (J : Type) where
  body : Option (BodyVal J) := none
  chunks : List String := []
  contentTypeHdr : Option String := none
  maxBodySize : Nat := 10 * 1024 * 1024
  streamReads : Nat := 0
  destroyed : Bool := false
  deriving Repr, DecidableEq

/-- `Request.parseBody`.  `jsonParse` models `JSON.parse` (`none` for a
`SyntaxError`), `formParse` models `URLSearchParams` form decoding. -/
def parseBody {J : Type} (jsonParse : String → Option J)
    (formParse : String → List (String × String)) (s : ReqState J) :
    Except ParseErr (Option (BodyVal J)) × ReqState J :=
  if s.body.isSome then (.ok s.body, s)
  else
    let s1 := { s with streamReads := s.streamReads + 1 }
    let total := (s.chunks.map String.length).sum
    if total > s.maxBodySize then
      (.error .payloadTooLarge, { s1 with destroyed := true })
    else
      let data := String.join s.chunks
      if s.contentTypeHdr.any (fun ct => strContains ct "application/json") then
        if data ≠ "" then
          match jsonParse data with
          | some j =>
            let s2 := { s1 with body := some (.json j) }
            (.ok s2.body, s2)
          | none => (.error .invalidJson, s1)
        else
          (.ok none, { s1 with body := none })
      else if s.contentTypeHdr.any
          (fun ct => strContains ct "application/x-www-form-urlencoded") then
        let s2 := { s1 with body := some (.form (formParse data)) }
        (.ok s2.body, s2)
      else
        if data = "" then (.ok none, { s1 with body := none })
        else
          let s2 := { s1 with body := some (.rawText data) }
          (.ok s2.body, s2)

/-! ## Theorems -/

/-- The `Router.match` loop returns exactly the first route of the
table (in registration order) whose method equals the upper-cased
request method and whose pattern matches the normalized path, with
that route's captures. -/
theorem findMatch_eq_find? (gmw : List Nat) (mu np : String)
    (routes : List Route) :
    (findMatch gmw mu np routes).map
        (fun m => (m.route.path, m.route.handler, m.params))
      = (routes.find? (fun r => r.method == mu && pathMatches np r)).map
          (fun r => (r.path, r.handler, (matchPath r.path np).getD [])) := by
  induction routes with
  | nil => simp [findMatch]
  | cons route rest ih =>
    by_cases hm : route.method = mu
    · have hbeq : (route.method == mu) = true := by simp [hm]
      rcases hp : matchPath route.path np with _ | params
      · have hpm : pathMatches np route = false := by simp [pathMatches, hp]
        simpa [findMatch, hm, List.find?_cons, hbeq, hpm, hp] using ih
      · have hpm : pathMatches np route = true := by simp [pathMatches, hp]
        simp [findMatch, hm, List.find?_cons, hbeq, hpm, hp]
    · have hbeq : (route.method == mu) = false := by simp [hm]
      simpa [findMatch, hm, List.find?_cons, hbeq] using ih

/-- The `Router.getAllowedMethods` loop collects the method of every
route whose pattern matches, in registration order. -/
theorem allowedAux_eq (np : String) (routes : List Route) :
    allowedAux np routes
      = (routes.filter (fun r => pathMatches np r)).map (·.method) := by
  induction routes with
  | nil => simp [allowedAux]
  | cons r rest ih =>
    rcases hp : matchPath r.path np with _ | params
    · simpa [allowedAux, hp, List.filter, pathMatches] using ih
    · simpa [allowedAux, hp, List.filter, pathMatches] using ih

/-- C1: corrected.  `Router.match` scans the route table in
registration order and returns the first route whose method and
pattern match — there is no static-over-capture tie-break.  The static
route `/users/me` therefore beats `/users/:id` exactly when it was
registered first; with the opposite registration order the capture
route is returned. -/
theorem claimC1_first_registered_wins :
    (∀ (rt : RouterState) (method path : String),
      (rt.matchRoute method path).map
          (fun m => (m.route.path, m.route.handler, m.params))
        = (rt.routes.find? (fun r => r.method == jsToUpper method
            && pathMatches (normalizePath path) r)).map
            (fun r => (r.path, r.handler,
              (matchPath r.path (normalizePath path)).getD []))) ∧
    ((RouterState.empty.addRoute "GET" "/users/me" 2
        |>.addRoute "GET" "/users/:id" 1).matchRoute "GET" "/users/me").map
        (fun m => m.route.handler) = some 2 ∧
    ((RouterState.empty.addRoute "GET" "/users/:id" 1
        |>.addRoute "GET" "/users/me" 2).matchRoute "GET" "/users/me").map
        (fun m => m.route.handler) = some 1 := by
  refine ⟨fun rt method path => ?_, by decide, by decide⟩
  exact findMatch_eq_find? rt.globalMiddleware (jsToUpper method)
    (normalizePath path) rt.routes

/-- C1: counterexample.  With `/users/:id` registered before
`/users/me` (both GET), `match('GET', '/users/me')` returns the
capture route, not the static one, so the tie-break does not hold for
both registration orders. -/
theorem claimC1_counterexample :
    ((RouterState.empty.addRoute "GET" "/users/:id" 1
        |>.addRoute "GET" "/users/me" 2).matchRoute "GET" "/users/me").map
        (fun m => m.route.path) = some "/users/:id" ∧
    ("/users/:id" : String) ≠ "/users/me" := by
  exact ⟨by decide, by decide⟩

/-- C2: the code is case-sensitive.  A router with `GET /users`
registered does not match `/Users` (`_normalizePath` performs no case
folding and the constructed regex has no `i` flag), while the
trailing-slash half of the claim does hold: `/users/` matches. -/
theorem claimC2_case_sensitivity_eval :
    (RouterState.empty.addRoute "GET" "/users" 1).matchRoute "GET" "/Users"
        = none ∧
    ((RouterState.empty.addRoute "GET" "/users" 1).matchRoute "GET"
        "/users/").map (fun m => m.route.handler) = some 1 := by
  exact ⟨by decide, by decide⟩

/-- C5: counterexample.  When two GET routes both match a path,
`getAllowedMethods` returns `GET` twice: the source pushes one entry
per matching route and never de-duplicates. -/
theorem claimC5_counterexample :
    ((RouterState.empty.addRoute "GET" "/users/me" 2
        |>.addRoute "GET" "/users/:id" 1).getAllowedMethods "/users/me")
        = ["GET", "GET"] ∧
    ¬ (["GET", "GET"] : List String).Nodup := by
  exact ⟨by decide, by decide⟩

/-- C5: corrected.  `getAllowedMethods(path)` returns the method of
every route whose pattern matches the normalized path, in registration
order — no omissions and nothing extra, but with one entry per
matching route, hence duplicates when several routes for the same
method match. -/
theorem claimC5_allowed_methods_exact (rt : RouterState) (path : String) :
    rt.getAllowedMethods path
        = (rt.routes.filter (fun r => pathMatches (normalizePath path) r)).map
            (·.method) ∧
    ∀ m : String, m ∈ rt.getAllowedMethods path ↔
      ∃ r ∈ rt.routes, r.method = m ∧ pathMatches (normalizePath path) r = true := by
  constructor
  · exact allowedAux_eq (normalizePath path) rt.routes
  · intro m
    rw [RouterState.getAllowedMethods, allowedAux_eq]
    simp only [List.mem_map, List.mem_filter]
    constructor
    · rintro ⟨r, ⟨hr, hp⟩, rfl⟩
      exact ⟨r, hr, rfl, hp⟩
    · rintro ⟨r, hr, rfl, hp⟩
      exact ⟨r, ⟨hr, hp⟩, rfl⟩

/-- The loop index never decreases across a middleware's `next` calls
(`next()` increments it, `next(e)` leaves it alone). -/
theorem applyNext_foldl_fst_ge {E : Type} (calls : List (Option E))
    (s : Nat × Option E) : s.1 ≤ (calls.foldl applyNext s).1 := by
  induction calls generalizing s with
  | nil => simp
  | cons c rest ih =>
    have h1 : s.1 ≤ (applyNext s c).1 := by
      cases c <;> simp [applyNext]
    exact le_trans h1 (ih (applyNext s c))

/-- The index after a middleware's `next` calls is at least the index
it was invoked at. -/
theorem applyCalls_fst_ge {E : Type} (idx : Nat) (calls : List (Option E)) :
    idx ≤ (applyCalls idx calls).1 :=
  applyNext_foldl_fst_ge calls (idx, none)

/-- The loop's `error` after a middleware's `next` calls is the last
error passed to `next`, regardless of the starting index. -/
theorem applyCalls_snd_eq_lastErr {E : Type} (idx : Nat)
    (calls : List (Option E)) : (applyCalls idx calls).2 = lastErr calls := by
  suffices h : ∀ (s : Nat × Option E),
      (calls.foldl applyNext s).2
        = calls.foldl (fun acc c => match c with | some e => some e | none => acc) s.2 by
    exact h (idx, none)
  induction calls with
  | nil => intro s; rfl
  | cons c rest ih =>
    intro s
    cases c <;> simp [applyNext, List.foldl_cons, ih]

/-- The invoked-index trace of the `execute` loop is strictly
increasing, and every invoked index is at least the starting index. -/
theorem execAux_invoked_sorted {E : Type} (mws : List (MWBehavior E)) :
    ∀ (f idx : Nat), (execAux mws f idx).1.Pairwise (· < ·) ∧
      ∀ k ∈ (execAux mws f idx).1, idx ≤ k := by
  intro f
  induction f with
  | zero => intro idx; simp [execAux]
  | succ f ih =>
    intro idx
    rcases hm : mws[idx]? with _ | b
    · simp [execAux, hm]
    · rcases ht : b.throws with _ | e
      · by_cases hidx : (applyCalls idx b.nextCalls).1 = idx
        · simp [execAux, hm, ht, hidx]
        · rcases herr : (applyCalls idx b.nextCalls).2 with _ | e
          · have hgt : idx < (applyCalls idx b.nextCalls).1 :=
              lt_of_le_of_ne (applyCalls_fst_ge idx b.nextCalls)
                (fun h => hidx h.symm)
            have hrest := ih (applyCalls idx b.nextCalls).1
            refine ⟨?_, ?_⟩
            · simp only [execAux, hm, ht, hidx, herr]
              refine List.Pairwise.cons ?_ hrest.1
              intro k hk
              exact lt_of_lt_of_le hgt (hrest.2 k hk)
            · simp only [execAux, hm, ht, hidx, herr]
              intro k hk
              rcases List.mem_cons.mp hk with rfl | hk'
              · exact le_refl k
              · exact le_of_lt (lt_of_lt_of_le hgt (hrest.2 k hk'))
          · simp [execAux, hm, ht, hidx, herr]
      · simp [execAux, hm, ht]

/-- One loop iteration over a middleware that calls `next()` exactly
once and returns: the middleware is invoked and the loop continues at
the next index. -/
theorem execAux_proceedOnce {E : Type} (mws : List (MWBehavior E))
    (f idx : Nat) (hm : mws[idx]? = some MWBehavior.proceedOnce) :
    execAux mws (f + 1) idx
      = ((idx :: (execAux mws f (idx + 1)).1), (execAux mws f (idx + 1)).2) := by
  simp [execAux, hm, MWBehavior.proceedOnce, applyCalls, applyNext]

/-- One loop iteration over a middleware that surfaces an error
(throws, or passes an error to `next`): the loop stops at that
middleware and `execute` rejects with that error. -/
theorem execAux_surfaced {E : Type} (mws : List (MWBehavior E))
    (f idx : Nat) (b : MWBehavior E) (e : E) (hm : mws[idx]? = some b)
    (hs : surfacedError b = some e) :
    execAux mws (f + 1) idx = ([idx], some e) := by
  rcases ht : b.throws with _ | e'
  · have hlast : lastErr b.nextCalls = some e := by
      simpa [surfacedError, ht] using hs
    have herr : (applyCalls idx b.nextCalls).2 = some e := by
      rw [applyCalls_snd_eq_lastErr]; exact hlast
    by_cases hidx : (applyCalls idx b.nextCalls).1 = idx
    · simp [execAux, hm, ht, hidx, herr]
    · simp [execAux, hm, ht, hidx, herr]
  · have he : e' = e := by simpa [surfacedError, ht] using hs
    subst he
    simp [execAux, hm, ht]

/-- One loop iteration over a middleware that completes without ever
calling `next`: the loop breaks with no error recorded. -/
theorem execAux_halt {E : Type} (mws : List (MWBehavior E))
    (f idx : Nat) (b : MWBehavior E) (hm : mws[idx]? = some b)
    (hn : b.nextCalls = []) (ht : b.throws = none) :
    execAux mws (f + 1) idx = ([idx], none) := by
  simp [execAux, hm, hn, ht, applyCalls]

/-- Run the loop across a prefix of middlewares that each proceed
exactly once, followed by one whose single iteration yields
`([index], out)`: the invoked indices are the consecutive block and
the outcome is `out`. -/
theorem execAux_prefix {E : Type} (mws : List (MWBehavior E)) :
    ∀ (i f idx : Nat), i ≤ f →
    (∀ j, j < i → mws[idx + j]? = some MWBehavior.proceedOnce) →
    ∀ (out : Option E),
    (∀ g, execAux mws (g + 1) (idx + i) = ([idx + i], out)) →
    execAux mws (f + 1) idx = (List.range' idx (i + 1), out) := by
  intro i
  induction i with
  | zero =>
    intro f idx _ _ out hstep
    simpa [List.range'] using hstep f
  | succ i ih =>
    intro f idx hif hpre out hstep
    rcases f with _ | f
    · omega
    · have h0 : mws[idx]? = some MWBehavior.proceedOnce := by
        simpa using hpre 0 (by omega)
      rw [execAux_proceedOnce mws (f + 1) idx h0]
      have hpre' : ∀ j, j < i →
          mws[(idx + 1) + j]? = some MWBehavior.proceedOnce := by
        intro j hj
        have h := hpre (j + 1) (by omega)
        have harith : idx + (j + 1) = (idx + 1) + j := by omega
        rwa [harith] at h
      have hstep' : ∀ g, execAux mws (g + 1) ((idx + 1) + i)
          = ([(idx + 1) + i], out) := by
        intro g
        have h := hstep g
        have harith : idx + (i + 1) = (idx + 1) + i := by omega
        rwa [harith] at h
      rw [ih f (idx + 1) (by omega) hpre' out hstep']
      simp [List.range']

/-- C3: `MiddlewareChain.execute` invokes middlewares in strictly
increasing index order, and when the middlewares before index `i` each
call `proceed()` exactly once and the middleware at index `i` completes
without ever invoking `proceed()` and without throwing, exactly the
middlewares `0 … i` run and `execute` resolves without error (the halt
is not an error). -/
theorem claimC3_order_and_halt {E : Type} (mws : List (MWBehavior E)) :
    (executeChain mws).1.Pairwise (· < ·) ∧
    ∀ (i : Nat) (b : MWBehavior E), mws[i]? = some b →
      (∀ j, j < i → mws[j]? = some MWBehavior.proceedOnce) →
      b.nextCalls = [] → b.throws = none →
      executeChain mws = (List.range (i + 1), none) := by
  constructor
  · exact (execAux_invoked_sorted mws mws.length 0).1
  · intro i b hm hpre hn ht
    have hi : i < mws.length := by
      rcases List.getElem?_eq_some.mp hm with ⟨h, _⟩
      exact h
    obtain ⟨f, hf⟩ : ∃ f, mws.length = f + 1 := ⟨mws.length - 1, by omega⟩
    have hstep : ∀ g, execAux mws (g + 1) (0 + i) = ([0 + i], none) := by
      intro g
      simpa using execAux_halt mws g i b hm hn ht
    have hpre0 : ∀ j, j < i → mws[0 + j]? = some MWBehavior.proceedOnce := by
      intro j hj
      simpa using hpre j hj
    have h := execAux_prefix mws i f 0 (by omega) hpre0 none hstep
    rw [executeChain, hf, h, ← List.range_eq_range']

/-- C3 witness: a three-middleware chain whose second middleware never
calls `proceed()` invokes exactly indices 0 and 1 and resolves. -/
theorem claimC3_witness :
    executeChain ([MWBehavior.proceedOnce, ⟨[], none⟩,
        MWBehavior.proceedOnce] : List (MWBehavior Nat)) = ([0, 1], none) := by
  have h := (claimC3_order_and_halt ([MWBehavior.proceedOnce, ⟨[], none⟩,
      MWBehavior.proceedOnce] : List (MWBehavior Nat))).2 1 ⟨[], none⟩
    (by rfl)
    (fun j hj => by
      have hj0 : j = 0 := by omega
      subst hj0; rfl)
    rfl rfl
  simpa using h

/-- C4: when the middlewares before index `i` each call `proceed()`
exactly once and the middleware at index `i` surfaces an error `e`
(throws it, or passes it to `proceed`), no middleware with index
greater than `i` runs and `execute` rejects with exactly `e`. -/
theorem claimC4_error_rejects {E : Type} (mws : List (MWBehavior E))
    (i : Nat) (b : MWBehavior E) (e : E) (hm : mws[i]? = some b)
    (hpre : ∀ j, j < i → mws[j]? = some MWBehavior.proceedOnce)
    (hs : surfacedError b = some e) :
    executeChain mws = (List.range (i + 1), some e) := by
  have hi : i < mws.length := by
    rcases List.getElem?_eq_some.mp hm with ⟨h, _⟩
    exact h
  obtain ⟨f, hf⟩ : ∃ f, mws.length = f + 1 := ⟨mws.length - 1, by omega⟩
  have hstep : ∀ g, execAux mws (g + 1) (0 + i) = ([0 + i], some e) := by
    intro g
    simpa using execAux_surfaced mws g i b e hm hs
  have hpre0 : ∀ j, j < i → mws[0 + j]? = some MWBehavior.proceedOnce := by
    intro j hj
    simpa using hpre j hj
  have h := execAux_prefix mws i f 0 (by omega) hpre0 (some e) hstep
  rw [executeChain, hf, h, ← List.range_eq_range']

/-- C4 witness: a chain whose second middleware passes error `7` to
`proceed` invokes exactly indices 0 and 1 and rejects with `7`; a chain
whose second middleware throws `9` behaves the same with `9`. -/
theorem claimC4_witness :
    executeChain ([MWBehavior.proceedOnce,
        ⟨[some 7], none⟩] : List (MWBehavior Nat)) = ([0, 1], some 7) ∧
    executeChain ([MWBehavior.proceedOnce,
        ⟨[], some 9⟩] : List (MWBehavior Nat)) = ([0, 1], some 9) := by
  constructor
  · have h := claimC4_error_rejects ([MWBehavior.proceedOnce,
        ⟨[some 7], none⟩] : List (MWBehavior Nat)) 1 ⟨[some 7], none⟩ 7
      (by rfl)
      (fun j hj => by
        have hj0 : j = 0 := by omega
        subst hj0; rfl)
      (by rfl)
    simpa using h
  · have h := claimC4_error_rejects ([MWBehavior.proceedOnce,
        ⟨[], some 9⟩] : List (MWBehavior Nat)) 1 ⟨[], some 9⟩ 9
      (by rfl)
      (fun j hj => by
        have hj0 : j = 0 := by omega
        subst hj0; rfl)
      (by rfl)
    simpa using h

/-- A response's lifecycle rank never exceeds 2. -/
theorem respRank_le_two {V : Type} (res : Resp V) : respRank res ≤ 2 := by
  unfold respRank
  split
  · exact le_refl 2
  · split <;> omega

/-- A finished response sits at rank 2. -/
theorem respRank_eq_two {V : Type} (res : Resp V) (h : res.finished = true) :
    respRank res = 2 := by
  simp [respRank, h]

/-- Under the reachability invariant the `finished` getter coincides
with the private `_finished` flag. -/
theorem finished_eq_flag {V : Type} (res : Resp V) (hInv : RespInv res) :
    res.finished = res.finishedFlag := by
  rcases hInv with ⟨_, h2⟩
  simp [Resp.finished, h2]

/-- `status` never changes the lifecycle flags. -/
theorem status_flags {V : Type} (res : Resp V) (c : Nat) :
    (res.status c).finishedFlag = res.finishedFlag ∧
    (res.status c).headersSentFlag = res.headersSentFlag ∧
    (res.status c).raw = res.raw := by
  by_cases h : res.headersSentFlag <;> simp [Resp.status, h]

/-- `header` never changes the lifecycle flags. -/
theorem header_flags {V : Type} (res : Resp V) (n : String) (v : HeaderVal) :
    (res.header n v).finishedFlag = res.finishedFlag ∧
    (res.header n v).headersSentFlag = res.headersSentFlag ∧
    (res.header n v).raw = res.raw := by
  by_cases h : res.headersSentFlag <;> simp [Resp.header, h]

/-- `_writeHeaders` keeps `_finished` and the raw stream's data, only
possibly raising `_headersSent`. -/
theorem writeHeadersPriv_flags {V : Type} (res : Resp V) :
    (res.writeHeadersPriv).finishedFlag = res.finishedFlag ∧
    (res.writeHeadersPriv).raw.ended = res.raw.ended ∧
    (res.writeHeadersPriv).raw.headersSentRaw = res.raw.headersSentRaw ∧
    (res.writeHeadersPriv).headersSentFlag = true ∨
      res.writeHeadersPriv = res := by
  by_cases h : res.headersSentFlag
  · right; simp [Resp.writeHeadersPriv, h]
  · left; simp [Resp.writeHeadersPriv, h]

/-- `_send` on a not-yet-finished response finishes it. -/
theorem sendPriv_finishes {V : Type} (res : Resp V) (d : RespData)
    (h : res.finishedFlag = false) : (res.sendPriv d).finished = true := by
  simp [Resp.sendPriv, h, Resp.finished, RawResp.endRaw]

/-- `_send` is the identity once `_finished` is set. -/
theorem sendPriv_noop {V : Type} (res : Resp V) (d : RespData)
    (h : res.finishedFlag = true) : res.sendPriv d = res := by
  simp [Resp.sendPriv, h]

/-- An operation that either finishes the response or leaves it
untouched never lowers the lifecycle rank. -/
theorem rank_mono_of_fin_or_id {V : Type} {res op : Resp V}
    (h : op.finished = true ∨ op = res) : respRank res ≤ respRank op := by
  rcases h with h | rfl
  · rw [respRank_eq_two op h]
    exact respRank_le_two res
  · exact le_refl _

/-- `status` preserves the lifecycle rank. -/
theorem rank_status_eq {V : Type} (res : Resp V) (c : Nat) :
    respRank (res.status c) = respRank res := by
  rcases status_flags res c with ⟨h1, h2, h3⟩
  simp [respRank, Resp.finished, Resp.headersSent, h1, h2, h3]

/-- `header` preserves the lifecycle rank. -/
theorem rank_header_eq {V : Type} (res : Resp V) (n : String) (v : HeaderVal) :
    respRank (res.header n v) = respRank res := by
  rcases header_flags res n v with ⟨h1, h2, h3⟩
  simp [respRank, Resp.finished, Resp.headersSent, h1, h2, h3]

/-- Setting the body slot does not affect the lifecycle invariant. -/
theorem inv_set_body {V : Type} {res : Resp V} (hInv : RespInv res)
    (b : Option (BodyData V)) : RespInv { res with body := b } := by
  simpa [RespInv] using hInv

/-- `status` preserves the lifecycle invariant. -/
theorem inv_status {V : Type} {res : Resp V} (hInv : RespInv res) (c : Nat) :
    RespInv (res.status c) := by
  rcases status_flags res c with ⟨h1, h2, h3⟩
  rcases hInv with ⟨i1, i2⟩
  exact ⟨by rw [h1, h2]; exact i1, by rw [h3, h1]; exact i2⟩

/-- `header` preserves the lifecycle invariant. -/
theorem inv_header {V : Type} {res : Resp V} (hInv : RespInv res)
    (n : String) (v : HeaderVal) : RespInv (res.header n v) := by
  rcases header_flags res n v with ⟨h1, h2, h3⟩
  rcases hInv with ⟨i1, i2⟩
  exact ⟨by rw [h1, h2]; exact i1, by rw [h3, h1]; exact i2⟩

/-- `_send` preserves the lifecycle invariant. -/
theorem inv_sendPriv {V : Type} {res : Resp V} (hInv : RespInv res)
    (d : RespData) : RespInv (res.sendPriv d) := by
  by_cases h : res.finishedFlag
  · simpa [Resp.sendPriv, h] using hInv
  · by_cases h2 : res.headersSentFlag <;>
      simp [Resp.sendPriv, h, h2, Resp.writeHeadersPriv, RawResp.endRaw, RespInv]

/-- `json` preserves the lifecycle invariant. -/
theorem inv_json {V : Type} {res : Resp V} (hInv : RespInv res)
    (stringify : V → String) (d : V) : RespInv (res.json stringify d) := by
  by_cases h : res.finishedFlag
  · simpa [Resp.json, h] using hInv
  · simp only [Resp.json, h, Bool.false_eq_true, if_false]
    exact inv_sendPriv (inv_set_body (inv_header hInv _ _) _) _

/-- `text` preserves the lifecycle invariant. -/
theorem inv_text {V : Type} {res : Resp V} (hInv : RespInv res) (s : String) :
    RespInv (res.text s) := by
  by_cases h : res.finishedFlag
  · simpa [Resp.text, h] using hInv
  · simp only [Resp.text, h, Bool.false_eq_true, if_false]
    exact inv_sendPriv (inv_set_body (inv_header hInv _ _) _) _

/-- `html` preserves the lifecycle invariant. -/
theorem inv_html {V : Type} {res : Resp V} (hInv : RespInv res) (s : String) :
    RespInv (res.html s) := by
  by_cases h : res.finishedFlag
  · simpa [Resp.html, h] using hInv
  · simp only [Resp.html, h, Bool.false_eq_true, if_false]
    exact inv_sendPriv (inv_set_body (inv_header hInv _ _) _) _

/-- `send` preserves the lifecycle invariant. -/
theorem inv_send {V : Type} {res : Resp V} (hInv : RespInv res)
    (stringify : V → String) (data : Option (BodyData V)) :
    RespInv (res.send stringify data) := by
  by_cases h : res.finishedFlag
  · simpa [Resp.send, h] using hInv
  · rcases data with _ | (v | s | b)
    · simp only [Resp.send, h, Bool.false_eq_true, if_false]
      exact inv_sendPriv (inv_status hInv _) _
    · simp only [Resp.send, h, Bool.false_eq_true, if_false]
      exact inv_json hInv stringify v
    · simp only [Resp.send, h, Bool.false_eq_true, if_false]
      rcases hct : (res.getHeader "content-type").isNone with _ | _
      · simp only [hct, Bool.false_eq_true, if_false]
        exact inv_sendPriv (inv_set_body hInv _) _
      · simp only [hct, if_true]
        exact inv_sendPriv (inv_set_body (inv_header hInv _ _) _) _
    · simp only [Resp.send, h, Bool.false_eq_true, if_false]
      rcases hct : (res.getHeader "content-type").isNone with _ | _
      · simp only [hct, Bool.false_eq_true, if_false]
        exact inv_sendPriv (inv_set_body hInv _) _
      · simp only [hct, if_true]
        exact inv_sendPriv (inv_set_body (inv_header hInv _ _) _) _

/-- `redirect` preserves the lifecycle invariant. -/
theorem inv_redirect {V : Type} {res : Resp V} (hInv : RespInv res)
    (url : String) (c : Nat) : RespInv (res.redirect url c) := by
  by_cases h : res.finishedFlag
  · simpa [Resp.redirect, h] using hInv
  · simp only [Resp.redirect, h, Bool.false_eq_true, if_false]
    exact inv_sendPriv (inv_header (inv_header (inv_status hInv _) _ _) _ _) _

/-- `write` preserves the lifecycle invariant. -/
theorem inv_write {V : Type} {res : Resp V} (hInv : RespInv res)
    (ch : RespData) : RespInv (res.write ch).1 := by
  rcases hInv with ⟨i1, i2⟩
  by_cases h : res.finishedFlag
  · have hid : (res.write ch).1 = res := by simp [Resp.write, h]
    rw [hid]
    exact ⟨i1, i2⟩
  · by_cases h2 : res.headersSentFlag <;>
      simp [Resp.write, h, h2, Resp.writeHeadersPriv, RawResp.write, RespInv,
        i2]

/-- `end` preserves the lifecycle invariant. -/
theorem inv_endResp {V : Type} {res : Resp V} (hInv : RespInv res)
    (d : Option RespData) : RespInv (res.endResp d) := by
  by_cases h : res.finishedFlag
  · simpa [Resp.endResp, h] using hInv
  · by_cases h2 : res.headersSentFlag <;>
      simp [Resp.endResp, h, h2, Resp.writeHeadersPriv, RawResp.endRaw, RespInv]

/-- `status` leaves `_finished` alone. -/
theorem status_finishedFlag {V : Type} (res : Resp V) (c : Nat) :
    (res.status c).finishedFlag = res.finishedFlag :=
  (status_flags res c).1

/-- `header` leaves `_finished` alone. -/
theorem header_finishedFlag {V : Type} (res : Resp V) (n : String)
    (v : HeaderVal) : (res.header n v).finishedFlag = res.finishedFlag :=
  (header_flags res n v).1

/-- `type` leaves `_finished` alone. -/
theorem type_finishedFlag {V : Type} (res : Resp V) (ct : String) :
    (res.type ct).finishedFlag = res.finishedFlag :=
  header_finishedFlag res "content-type" (.str ct)

/-- `json` on an unfinished response finishes it. -/
theorem json_finishes {V : Type} (res : Resp V) (stringify : V → String)
    (d : V) (h : res.finishedFlag = false) :
    (res.json stringify d).finished = true := by
  simp only [Resp.json, h, Bool.false_eq_true, if_false]
  apply sendPriv_finishes
  show (res.type "application/json; charset=utf-8").finishedFlag = false
  rw [type_finishedFlag]
  exact h

/-- `json` either finishes the response or leaves it untouched. -/
theorem json_fin_or {V : Type} (res : Resp V) (stringify : V → String) (d : V) :
    (res.json stringify d).finished = true ∨ res.json stringify d = res := by
  rcases h : res.finishedFlag with _ | _
  · exact Or.inl (json_finishes res stringify d h)
  · exact Or.inr (by simp [Resp.json, h])

/-- `text` on an unfinished response finishes it. -/
theorem text_finishes {V : Type} (res : Resp V) (s : String)
    (h : res.finishedFlag = false) : (res.text s).finished = true := by
  simp only [Resp.text, h, Bool.false_eq_true, if_false]
  apply sendPriv_finishes
  show (res.type "text/plain; charset=utf-8").finishedFlag = false
  rw [type_finishedFlag]
  exact h

/-- `text` either finishes the response or leaves it untouched. -/
theorem text_fin_or {V : Type} (res : Resp V) (s : String) :
    (res.text s).finished = true ∨ res.text s = res := by
  rcases h : res.finishedFlag with _ | _
  · exact Or.inl (text_finishes res s h)
  · exact Or.inr (by simp [Resp.text, h])

/-- `html` on an unfinished response finishes it. -/
theorem html_finishes {V : Type} (res : Resp V) (s : String)
    (h : res.finishedFlag = false) : (res.html s).finished = true := by
  simp only [Resp.html, h, Bool.false_eq_true, if_false]
  apply sendPriv_finishes
  show (res.type "text/html; charset=utf-8").finishedFlag = false
  rw [type_finishedFlag]
  exact h

/-- `html` either finishes the response or leaves it untouched. -/
theorem html_fin_or {V : Type} (res : Resp V) (s : String) :
    (res.html s).finished = true ∨ res.html s = res := by
  rcases h : res.finishedFlag with _ | _
  · exact Or.inl (html_finishes res s h)
  · exact Or.inr (by simp [Resp.html, h])

/-- `send` either finishes the response or leaves it untouched. -/
theorem send_fin_or {V : Type} (res : Resp V) (stringify : V → String)
    (data : Option (BodyData V)) :
    (res.send stringify data).finished = true ∨ res.send stringify data = res := by
  rcases h : res.finishedFlag with _ | _
  · left
    rcases data with _ | (v | s | b)
    · simp only [Resp.send, h, Bool.false_eq_true, if_false]
      apply sendPriv_finishes
      rw [status_finishedFlag]
      exact h
    · simp only [Resp.send, h, Bool.false_eq_true, if_false]
      exact json_finishes res stringify v h
    · simp only [Resp.send, h, Bool.false_eq_true, if_false]
      rcases hct : (res.getHeader "content-type").isNone with _ | _
      · simp only [hct, Bool.false_eq_true, if_false]
        exact sendPriv_finishes _ _ h
      · simp only [hct, if_true]
        apply sendPriv_finishes
        show (res.type "text/html; charset=utf-8").finishedFlag = false
        rw [type_finishedFlag]
        exact h
    · simp only [Resp.send, h, Bool.false_eq_true, if_false]
      rcases hct : (res.getHeader "content-type").isNone with _ | _
      · simp only [hct, Bool.false_eq_true, if_false]
        exact sendPriv_finishes _ _ h
      · simp only [hct, if_true]
        apply sendPriv_finishes
        show (res.type "application/octet-stream").finishedFlag = false
        rw [type_finishedFlag]
        exact h
  · exact Or.inr (by simp [Resp.send, h])

/-- `redirect` either finishes the response or leaves it untouched. -/
theorem redirect_fin_or {V : Type} (res : Resp V) (url : String) (c : Nat) :
    (res.redirect url c).finished = true ∨ res.redirect url c = res := by
  rcases h : res.finishedFlag with _ | _
  · left
    simp only [Resp.redirect, h, Bool.false_eq_true, if_false]
    apply sendPriv_finishes
    show (((res.status c).header "location" (.str url)).type
      "text/html; charset=utf-8").finishedFlag = false
    rw [type_finishedFlag, header_finishedFlag, status_finishedFlag]
    exact h
  · exact Or.inr (by simp [Resp.redirect, h])

/-- `end` either finishes the response or leaves it untouched. -/
theorem endResp_fin_or {V : Type} (res : Resp V) (d : Option RespData) :
    (res.endResp d).finished = true ∨ res.endResp d = res := by
  rcases h : res.finishedFlag with _ | _
  · left
    by_cases h2 : res.headersSentFlag <;>
      simp [Resp.endResp, h, h2, Resp.writeHeadersPriv, RawResp.endRaw,
        Resp.finished]
  · exact Or.inr (by simp [Resp.endResp, h])

/-- `write` never lowers the lifecycle rank. -/
theorem rank_write_le {V : Type} (res : Resp V) (hInv : RespInv res)
    (ch : RespData) : respRank res ≤ respRank (res.write ch).1 := by
  rcases h : res.finishedFlag with _ | _
  · have hfin : res.finished = false := by
      rw [finished_eq_flag res hInv]; exact h
    have hrank : respRank res ≤ 1 := by
      simp only [respRank, hfin, Bool.false_eq_true, if_false]
      split <;> omega
    have hsent : (res.write ch).1.headersSent = true := by
      by_cases h2 : res.headersSentFlag <;>
        simp [Resp.write, h, h2, Resp.writeHeadersPriv, RawResp.write,
          Resp.headersSent]
    have hge : respRank (res.write ch).1 = 1 ∨ respRank (res.write ch).1 = 2 := by
      rcases hfw : (res.write ch).1.finished with _ | _ <;>
        simp [respRank, hfw, hsent]
    omega
  · simp [Resp.write, h]

/-- C6: the response lifecycle is monotonic — no operation lowers the
`pending → headersSent → finished` rank and every operation preserves
the reachability invariant — and once the response is finished every
mutating operation (`status`, `header`, `json`, `text`, `html`,
`send`, `redirect`, `write`, `end`) leaves the wrapper state and the
underlying transport unchanged (`write` additionally returns `false`). -/
theorem claimC6_response_lifecycle (V : Type) (stringify : V → String)
    (res : Resp V) (hInv : RespInv res) :
    ((∀ c, respRank res ≤ respRank (res.status c)) ∧
     (∀ n v, respRank res ≤ respRank (res.header n v)) ∧
     (∀ d, respRank res ≤ respRank (res.json stringify d)) ∧
     (∀ s, respRank res ≤ respRank (res.text s)) ∧
     (∀ s, respRank res ≤ respRank (res.html s)) ∧
     (∀ d, respRank res ≤ respRank (res.send stringify d)) ∧
     (∀ u c, respRank res ≤ respRank (res.redirect u c)) ∧
     (∀ ch, respRank res ≤ respRank (res.write ch).1) ∧
     (∀ d, respRank res ≤ respRank (res.endResp d))) ∧
    ((∀ c, RespInv (res.status c)) ∧
     (∀ n v, RespInv (res.header n v)) ∧
     (∀ d, RespInv (res.json stringify d)) ∧
     (∀ s, RespInv (res.text s)) ∧
     (∀ s, RespInv (res.html s)) ∧
     (∀ d, RespInv (res.send stringify d)) ∧
     (∀ u c, RespInv (res.redirect u c)) ∧
     (∀ ch, RespInv (res.write ch).1) ∧
     (∀ d, RespInv (res.endResp d))) ∧
    (res.finished = true →
     (∀ c, res.status c = res) ∧
     (∀ n v, res.header n v = res) ∧
     (∀ d, res.json stringify d = res) ∧
     (∀ s, res.text s = res) ∧
     (∀ s, res.html s = res) ∧
     (∀ d, res.send stringify d = res) ∧
     (∀ u c, res.redirect u c = res) ∧
     (∀ ch, res.write ch = (res, false)) ∧
     (∀ d, res.endResp d = res)) := by
  refine ⟨⟨?_, ?_, ?_, ?_, ?_, ?_, ?_, ?_, ?_⟩,
          ⟨?_, ?_, ?_, ?_, ?_, ?_, ?_, ?_, ?_⟩, ?_⟩
  · intro c; rw [rank_status_eq]
  · intro n v; rw [rank_header_eq]
  · intro d; exact rank_mono_of_fin_or_id (json_fin_or res stringify d)
  · intro s; exact rank_mono_of_fin_or_id (text_fin_or res s)
  · intro s; exact rank_mono_of_fin_or_id (html_fin_or res s)
  · intro d; exact rank_mono_of_fin_or_id (send_fin_or res stringify d)
  · intro u c; exact rank_mono_of_fin_or_id (redirect_fin_or res u c)
  · intro ch; exact rank_write_le res hInv ch
  · intro d; exact rank_mono_of_fin_or_id (endResp_fin_or res d)
  · intro c; exact inv_status hInv c
  · intro n v; exact inv_header hInv n v
  · intro d; exact inv_json hInv stringify d
  · intro s; exact inv_text hInv s
  · intro s; exact inv_html hInv s
  · intro d; exact inv_send hInv stringify d
  · intro u c; exact inv_redirect hInv u c
  · intro ch; exact inv_write hInv ch
  · intro d; exact inv_endResp hInv d
  · intro hfin
    have hF : res.finishedFlag = true := by
      rw [← finished_eq_flag res hInv]; exact hfin
    have hH : res.headersSentFlag = true := hInv.1 hF
    refine ⟨?_, ?_, ?_, ?_, ?_, ?_, ?_, ?_, ?_⟩
    · intro c; simp [Resp.status, hH]
    · intro n v; simp [Resp.header, hH]
    · intro d; simp [Resp.json, hF]
    · intro s; simp [Resp.text, hF]
    · intro s; simp [Resp.html, hF]
    · intro d; simp [Resp.send, hF]
    · intro u c; simp [Resp.redirect, hF]
    · intro ch; simp [Resp.write, hF]
    · intro d; simp [Resp.endResp, hF]

/-- C6 witness: a concrete finished response is left untouched by
`status`, `json` and `write`. -/
theorem claimC6_witness :
    ({ statusCode := 200, headers := [], body := none,
       raw := { statusCode := 200, headers := [],
                chunks := [RespData.str "x"], ended := true,
                headersSentRaw := true },
       headersSentFlag := true, finishedFlag := true } : Resp String).status 500
      = ({ statusCode := 200, headers := [], body := none,
           raw := { statusCode := 200, headers := [],
                    chunks := [RespData.str "x"], ended := true,
                    headersSentRaw := true },
           headersSentFlag := true, finishedFlag := true } : Resp String) ∧
    ({ statusCode := 200, headers := [], body := none,
       raw := { statusCode := 200, headers := [],
                chunks := [RespData.str "x"], ended := true,
                headersSentRaw := true },
       headersSentFlag := true, finishedFlag := true } : Resp String).write
        (.str "y")
      = (({ statusCode := 200, headers := [], body := none,
            raw := { statusCode := 200, headers := [],
                     chunks := [RespData.str "x"], ended := true,
                     headersSentRaw := true },
            headersSentFlag := true, finishedFlag := true } : Resp String),
         false) := by
  have h := (claimC6_response_lifecycle String (fun s => s)
    ({ statusCode := 200, headers := [], body := none,
       raw := { statusCode := 200, headers := [],
                chunks := [RespData.str "x"], ended := true,
                headersSentRaw := true },
       headersSentFlag := true, finishedFlag := true } : Resp String)
    (by decide)).2.2 (by decide)
  exact ⟨h.1 500, h.2.2.2.2.2.2.2.1 (.str "y")⟩

/-- Interleaving two context-bound tasks under any cooperative schedule
produces, for each task, exactly the observations of running that
task's executed prefix alone on its own binding: the schedule and the
other task are invisible. -/
theorem runSched_eq_solo {V : Type} :
    ∀ (sched : List Bool) (opsA : List (CtxOp V)) (bA : Option (RequestStore V))
      (opsB : List (CtxOp V)) (bB : Option (RequestStore V)),
    runSched sched opsA bA opsB bB
      = ((runOps (opsA.take (sched.count true)) bA).2,
         (runOps (opsB.take (sched.count false)) bB).2) := by
  intro sched
  induction sched with
  | nil =>
    intro opsA bA opsB bB
    simp [runSched, runOps]
  | cons t sch ih =>
    intro opsA bA opsB bB
    cases t
    · cases opsB with
      | nil =>
        rw [show runSched (false :: sch) opsA bA [] bB
              = runSched sch opsA bA [] bB from rfl, ih]
        simp [List.count_cons, runOps]
      | cons b bs =>
        rw [show runSched (false :: sch) opsA bA (b :: bs) bB
              = (let p := stepOp b bB
                 let q := runSched sch opsA bA bs p.1
                 (q.1, p.2.toList ++ q.2)) from rfl]
        simp only [ih, List.count_cons]
        simp [runOps]
    · cases opsA with
      | nil =>
        rw [show runSched (true :: sch) [] bA opsB bB
              = runSched sch [] bA opsB bB from rfl, ih]
        simp [List.count_cons, runOps]
      | cons a as =>
        rw [show runSched (true :: sch) (a :: as) bA opsB bB
              = (let p := stepOp a bA
                 let q := runSched sch as p.1 opsB bB
                 (p.2.toList ++ q.1, q.2)) from rfl]
        simp only [ih, List.count_cons]
        simp [runOps]

/-- Every id observation of a task run on a binding with id `st.id`
reports exactly that id: `set` never changes the bound store's id. -/
theorem runOps_idObs {V : Type} :
    ∀ (ops : List (CtxOp V)) (st : RequestStore V) (s : Option String),
    CtxObs.idObs s ∈ (runOps ops (some st)).2 → s = some st.id := by
  intro ops
  induction ops with
  | nil =>
    intro st s h
    simp [runOps] at h
  | cons op rest ih =>
    intro st s h
    cases op with
    | set k v =>
      simp only [runOps, stepOp, ctxSet, Option.toList, List.nil_append] at h
      exact ih { st with
        metadata := some (setAssoc (st.metadata.getD []) k v) } s h
    | getId =>
      simp only [runOps, stepOp, ctxGetRequestId, Option.map_some,
        Option.toList, List.cons_append, List.nil_append, List.mem_cons] at h
      rcases h with h | h
      · simpa using h
      · exact ih st s h
    | getMeta k =>
      simp only [runOps, stepOp, Option.toList, List.cons_append,
        List.nil_append, List.mem_cons] at h
      rcases h with h | h
      · exact absurd h (by simp)
      · exact ih st s h
    | getReq =>
      simp only [runOps, stepOp, Option.toList, List.cons_append,
        List.nil_append, List.mem_cons] at h
      rcases h with h | h
      · exact absurd h (by simp)
      · exact ih st s h
    | getRes =>
      simp only [runOps, stepOp, Option.toList, List.cons_append,
        List.nil_append, List.mem_cons] at h
      rcases h with h | h
      · exact absurd h (by simp)
      · exact ih st s h

/-- C7: context isolation.  Under any cooperative interleaving of two
tasks bound to distinct stores, each task's observations equal those of
running it alone on its own store (the other task and the schedule are
invisible); every request-id observation of a task reports its own
store's id; and outside any binding all the getters return nothing. -/
theorem claimC7_context_isolation (V : Type) (sched : List Bool)
    (opsA opsB : List (CtxOp V)) (stA stB : RequestStore V) :
    (runSched sched opsA (some stA) opsB (some stB)
      = ((runOps (opsA.take (sched.count true)) (some stA)).2,
         (runOps (opsB.take (sched.count false)) (some stB)).2)) ∧
    (∀ s, CtxObs.idObs s ∈ (runSched sched opsA (some stA) opsB (some stB)).1 →
      s = some stA.id) ∧
    (∀ s, CtxObs.idObs s ∈ (runSched sched opsA (some stA) opsB (some stB)).2 →
      s = some stB.id) ∧
    (ctxGetRequestId (V := V) none = none ∧
     ctxGetRequest (V := V) none = none ∧
     ctxGetResponse (V := V) none = none ∧
     (∀ k, ctxGet (V := V) k none = none) ∧
     ctxHas (V := V) none = false) := by
  have hmain := runSched_eq_solo sched opsA (some stA) opsB (some stB)
  refine ⟨hmain, ?_, ?_, rfl, rfl, rfl, fun k => rfl, rfl⟩
  · intro s hs
    rw [hmain] at hs
    exact runOps_idObs _ stA s hs
  · intro s hs
    rw [hmain] at hs
    exact runOps_idObs _ stB s hs

/-- C7 witness: two concrete interleaved tasks each observe their own
id and their own metadata value. -/
theorem claimC7_witness :
    (runSched [true, false, true, false, true, false]
        [CtxOp.getId, CtxOp.set "k" 5, CtxOp.getMeta "k"]
        (some (mkStore "a" 1 2 0))
        [CtxOp.getId, CtxOp.set "k" 6, CtxOp.getMeta "k"]
        (some (mkStore "b" 3 4 0))
      = ([CtxObs.idObs (some "a"), CtxObs.metaObs (some (5 : Nat))],
         [CtxObs.idObs (some "b"), CtxObs.metaObs (some 6)])) ∧
    (some "a" : Option String) = some "a" := by
  refine ⟨by decide, ?_⟩
  exact (claimC7_context_isolation Nat [true, false, true, false, true, false]
      [CtxOp.getId, CtxOp.set "k" 5, CtxOp.getMeta "k"]
      [CtxOp.getId, CtxOp.set "k" 6, CtxOp.getMeta "k"]
      (mkStore "a" 1 2 0) (mkStore "b" 3 4 0)).2.1 (some "a") (by decide)

/-- C8: every error reaching `_handleError` on an unfinished response
is given to the configured handler — when that handler returns, its
result stands; when it throws, the built-in default handler runs as a
last resort on the original error — and the default handler leaves an
already-finished response untouched (it never writes twice);
`_handleError` itself is also a no-op on a finished response. -/
theorem claimC8_error_funnel (debug : Bool) (stringify : JVal → String)
    (handler : ErrHandler) (e : ErrObj) (req : Nat) (res : Resp JVal) :
    (res.finished = false →
      (∀ res', handler e req res = (res', none) →
        handleError debug stringify handler e req res = res') ∧
      (∀ res' e2, handler e req res = (res', some e2) →
        handleError debug stringify handler e req res
          = defaultErrorHandler debug stringify e req res')) ∧
    (res.finished = true →
      handleError debug stringify handler e req res = res ∧
      defaultErrorHandler debug stringify e req res = res) := by
  constructor
  · intro hfin
    constructor
    · intro res' hh
      simp [handleError, hfin, hh]
    · intro res' e2 hh
      simp [handleError, hfin, hh]
  · intro hfin
    constructor
    · simp [handleError, hfin]
    · rcases e with e | e <;> simp [defaultErrorHandler, hfin]

/-- C8 witness: with a configured handler that always throws, a fresh
response is handled by the default handler on the original error. -/
theorem claimC8_witness :
    handleError false (fun _ => "") (fun _ _ r => (r, some (.generic "boom" "")))
        (.http 404 "nope" none) 0 (Resp.fresh : Resp JVal)
      = defaultErrorHandler false (fun _ => "") (.http 404 "nope" none) 0
          Resp.fresh := by
  exact ((claimC8_error_funnel false (fun _ => "")
      (fun _ _ r => (r, some (.generic "boom" ""))) (.http 404 "nope" none) 0
      Resp.fresh).1 (by decide)).2 Resp.fresh (.generic "boom" "") rfl

/-- Keyed assignment followed by lookup of the same key returns the
assigned value. -/
theorem getAssoc_setAssoc_self {α : Type} (l : List (String × α))
    (k : String) (v : α) : getAssoc (setAssoc l k v) k = some v := by
  induction l with
  | nil => simp [setAssoc, getAssoc]
  | cons p rest ih =>
    obtain ⟨k', v'⟩ := p
    by_cases h : k' = k
    · simp [setAssoc, getAssoc, h]
    · simp only [setAssoc, h, if_false]
      simpa [getAssoc, h] using ih

/-- C9: with `max = 2`, three hits on the same key within one window
count 1, 2 and 3 — the record is created on the first hit and then
incremented with its window reset time unchanged — the first two
requests proceed, and the third fails with a 429 `HttpError` after
setting a numeric `retry-after` header holding the seconds until the
window resets (rounded up). -/
theorem claimC9_throttle_429 (V : Type) (key : String) (t1 t2 t3 : Nat)
    (st0 : RLStore) (res1 res2 res3 : Resp V)
    (o1 o2 o3 : RLOutcome) (st1 st2 st3 : RLStore)
    (res1' res2' res3' : Resp V)
    (hkey : getAssoc st0 key = none)
    (_h12 : t1 ≤ t2) (h23 : t2 ≤ t3) (h3w : t3 ≤ t1 + 900000)
    (hhs : res3.headersSentFlag = false)
    (hs1 : rateLimitStep { max := 2 } false key t1 t1 st0 res1 = (o1, st1, res1'))
    (hs2 : rateLimitStep { max := 2 } false key t2 t2 st1 res2 = (o2, st2, res2'))
    (hs3 : rateLimitStep { max := 2 } false key t3 t3 st2 res3 = (o3, st3, res3')) :
    o1 = RLOutcome.proceed ∧ o2 = RLOutcome.proceed ∧
    (memIncrement st0 key 900000 t1).1 = ⟨1, t1 + 900000⟩ ∧
    (memIncrement st1 key 900000 t2).1 = ⟨2, t1 + 900000⟩ ∧
    (memIncrement st2 key 900000 t3).1 = ⟨3, t1 + 900000⟩ ∧
    o3 = RLOutcome.failWith
      ⟨429, "Too many requests, please try again later."⟩ ∧
    res3'.getHeader "retry-after"
      = some (.str (toString
          (jsCeilDiv (((t1 + 900000 : Nat) : Int) - (t3 : Int)) 1000))) := by
  have hinc1 : memIncrement st0 key 900000 t1
      = (⟨1, t1 + 900000⟩, setAssoc st0 key ⟨1, t1 + 900000⟩) := by
    simp [memIncrement, hkey]
  simp only [rateLimitStep, if_false, Bool.false_eq_true, hinc1] at hs1
  simp only [show ¬((1 : Nat) > 2) from by omega, if_false, Prod.mk.injEq] at hs1
  obtain ⟨ho1, hst1, _⟩ := hs1
  have hkey1 : getAssoc st1 key = some ⟨1, t1 + 900000⟩ := by
    rw [← hst1]
    exact getAssoc_setAssoc_self st0 key _
  have hinc2 : memIncrement st1 key 900000 t2
      = (⟨2, t1 + 900000⟩, setAssoc st1 key ⟨2, t1 + 900000⟩) := by
    simp [memIncrement, hkey1, show ¬(t2 > t1 + 900000) from by omega]
  simp only [rateLimitStep, if_false, Bool.false_eq_true, hinc2] at hs2
  simp only [show ¬((2 : Nat) > 2) from by omega, if_false, Prod.mk.injEq] at hs2
  obtain ⟨ho2, hst2, _⟩ := hs2
  have hkey2 : getAssoc st2 key = some ⟨2, t1 + 900000⟩ := by
    rw [← hst2]
    exact getAssoc_setAssoc_self st1 key _
  have hinc3 : memIncrement st2 key 900000 t3
      = (⟨3, t1 + 900000⟩, setAssoc st2 key ⟨3, t1 + 900000⟩) := by
    simp [memIncrement, hkey2, show ¬(t3 > t1 + 900000) from by omega]
  simp only [rateLimitStep, if_false, Bool.false_eq_true, hinc3] at hs3
  simp only [show (3 : Nat) > 2 from by omega, if_true, Prod.mk.injEq] at hs3
  obtain ⟨ho3, hst3, hres3'⟩ := hs3
  refine ⟨ho1.symm, ho2.symm, by rw [hinc1], by rw [hinc2], by rw [hinc3],
    by rw [← ho3], ?_⟩
  rw [← hres3']
  set X := ((res3.header "ratelimit-limit"
      (.str (toString ({ max := 2 } : RLConfig).max))).header
      "ratelimit-remaining" _).header "ratelimit-reset" _ with hX
  have hXhs : X.headersSentFlag = false := by
    rw [hX, (header_flags _ _ _).2.1, (header_flags _ _ _).2.1,
      (header_flags _ _ _).2.1]
    exact hhs
  simp [Resp.header, Resp.getHeader, hXhs, getAssoc_setAssoc_self]

/-- C9 witness: three concrete hits on key `"k"` at 0 ms, 1000 ms and
2000 ms — the third request fails with the 429 error. -/
theorem claimC9_witness :
    (rateLimitStep { max := 2 } false "k" 2000 2000
        (rateLimitStep { max := 2 } false "k" 1000 1000
          (rateLimitStep { max := 2 } false "k" 0 0 []
            (Resp.fresh : Resp String)).2.1 (Resp.fresh : Resp String)).2.1
        (Resp.fresh : Resp String)).1
      = RLOutcome.failWith
          ⟨429, "Too many requests, please try again later."⟩ := by
  have h := claimC9_throttle_429 String "k" 0 1000 2000 []
    Resp.fresh Resp.fresh Resp.fresh _ _ _ _ _ _ _ _ _
    (by decide) (by omega) (by omega) (by omega) (by decide) rfl rfl rfl
  exact h.2.2.2.2.2.1

/-- C10: `parseBody` is idempotent at the public interface.  When the
cached body is already set (not `undefined`), a call resolves with it
and leaves the request state — in particular the stream-read counter —
untouched; and after any call that resolved having set the body, every
later call returns that same body with the state unchanged. -/
theorem claimC10_parseBody_idempotent (J : Type)
    (jsonParse : String → Option J)
    (formParse : String → List (String × String)) :
    (∀ (s : ReqState J) (v : BodyVal J), s.body = some v →
      parseBody jsonParse formParse s = (.ok (some v), s)) ∧
    (∀ (s s' : ReqState J) (r : BodyVal J),
      parseBody jsonParse formParse s = (.ok (some r), s') →
      parseBody jsonParse formParse s' = (.ok (some r), s')) := by
  have cached : ∀ (s : ReqState J) (v : BodyVal J), s.body = some v →
      parseBody jsonParse formParse s = (.ok (some v), s) := by
    intro s v hv
    simp [parseBody, hv]
  refine ⟨cached, ?_⟩
  intro s s' r h
  rcases hb : s.body with _ | v
  · simp only [parseBody, hb, Option.isSome_none, Bool.false_eq_true,
      if_false] at h
    by_cases h1 : (s.chunks.map String.length).sum > s.maxBodySize
    · rw [if_pos h1] at h
      simp at h
    · rw [if_neg h1] at h
      rcases h2 : s.contentTypeHdr.any
          (fun ct => strContains ct "application/json") with _ | _
      · rw [if_neg (by simp [h2])] at h
        rcases h3 : s.contentTypeHdr.any
            (fun ct => strContains ct "application/x-www-form-urlencoded")
            with _ | _
        · rw [if_neg (by simp [h3])] at h
          by_cases hd : String.join s.chunks = ""
          · rw [if_pos hd] at h
            simp at h
          · rw [if_neg hd] at h
            simp only [Prod.mk.injEq, Except.ok.injEq, Option.some.injEq] at h
            obtain ⟨hr, hs'⟩ := h
            rw [← hs']
            exact cached _ _ (by rw [← hr])
        · rw [if_pos (by simp [h3])] at h
          simp only [Prod.mk.injEq, Except.ok.injEq, Option.some.injEq] at h
          obtain ⟨hr, hs'⟩ := h
          rw [← hs']
          exact cached _ _ (by rw [← hr])
      · rw [if_pos (by simp [h2])] at h
        by_cases hd : String.join s.chunks = ""
        · rw [if_neg (by simp [hd])] at h
          simp at h
        · rw [if_pos (by simp [hd])] at h
          rcases hjp : jsonParse (String.join s.chunks) with _ | j
          · rw [hjp] at h
            simp at h
          · rw [hjp] at h
            simp only [Prod.mk.injEq, Except.ok.injEq, Option.some.injEq] at h
            obtain ⟨hr, hs'⟩ := h
            rw [← hs']
            exact cached _ _ (by rw [← hr])
  · have hc := cached s v hb
    rw [hc] at h
    simp only [Prod.mk.injEq, Except.ok.injEq, Option.some.injEq] at h
    obtain ⟨hr, hs'⟩ := h
    rw [← hs']
    exact cached s r (by rw [hb, hr])

/-- C10 witness: a request whose body is already cached resolves with
the cached value and an unchanged state (no further stream read). -/
theorem claimC10_witness :
    parseBody (fun _ => (none : Option Nat)) (fun _ => [])
        { body := some (.rawText "hi"), chunks := ["ignored"],
          contentTypeHdr := none, maxBodySize := 100, streamReads := 1,
          destroyed := false }
      = (.ok (some (.rawText "hi")),
         { body := some (.rawText "hi"), chunks := ["ignored"],
           contentTypeHdr := none, maxBodySize := 100, streamReads := 1,
           destroyed := false }) := by
  exact (claimC10_parseBody_idempotent Nat (fun _ => none) (fun _ => [])).1
    _ (.rawText "hi") rfl

end Framework
